import Mathlib

/-!
# Verification of the Bayesian analysis recipes repository

This file gives a shallow embedding of the computational content of the
repository: the declarative probabilistic-model specifications built in the
two notebooks (`generalized-abcde-tests.ipynb` and the Dirichlet-Multinomial
incubator notebook), the posterior-sampling workflow that the repository
drives through its statistical library, the metadata dictionary `md` and its
serialized key-value document, and the `ECDF` helper function.

The repository's own source code contains the model declarations, the data
arrays, `md`, and `ECDF`; those are translated here directly from the source.
The posterior sampler itself, and the document serializer, are external
collaborators that the repository calls but does not contain; they are
modelled from the specification, and every such definition carries a doc
comment saying so.

All numeric values are rationals.  Machine floating point is not modelled;
transcendental functions occurring in density formulas are replaced by
computable rational stand-ins, which is recorded at each definition.
-/

set_option linter.unusedVariables false
set_option maxRecDepth 100000
set_option allowUnsafeReducibility true
attribute [local semireducible] Rat.add Rat.mul Rat.inv Rat.div Rat.sub Rat.neg

deriving instance DecidableEq for Except

namespace BayesRecipes

/-- Modelled from the spec: a reference to a distribution parameter.  The spec
requires that "every parameter referenced by a distribution must resolve to a
previously declared variable or a constant", so a parameter is either a
numeric constant or a named variable reference. -/
inductive Param where
  | const (q : ℚ)
  | var (name : String)
deriving DecidableEq

/-- Modelled from the spec: the pure expressions defining a
DeterministicVariable ("a named quantity computed as a pure function of other
variables").  The operations are the ones used by the source notebook's
`pm.Deterministic` declarations: subtraction, division, `np.power` and
`np.sqrt`. -/
inductive Expr where
  | const (q : ℚ)
  | var (name : String)
  | add (a b : Expr)
  | sub (a b : Expr)
  | mul (a b : Expr)
  | div (a b : Expr)
  | pow (a : Expr) (n : ℕ)
  | sqrt (a : Expr)
deriving DecidableEq

/-- The variable names referenced by an expression. -/
def Expr.refs : Expr → List String
  | .const _ => []
  | .var n => [n]
  | .add a b => a.refs ++ b.refs
  | .sub a b => a.refs ++ b.refs
  | .mul a b => a.refs ++ b.refs
  | .div a b => a.refs ++ b.refs
  | .pow a _ => a.refs
  | .sqrt a => a.refs

/-- Modelled from the spec: the distribution families used by the
repository's models ("a tagged variant over {Normal, HalfNormal, HalfCauchy,
Exponential, Dirichlet, Multinomial, Poisson, StudentT, ...}").
`shiftedExponential` models the source pattern `pm.Exponential(...) + 1`,
which the spec describes as flooring a degrees-of-freedom parameter above a
minimum "via an additive shift on an Exponential-distributed base variable".
`dirichletSym` models `pm.Dirichlet` with a symmetric concentration vector
`np.ones(dim)`. -/
inductive PDist where
  | normal (mu sd : Param)
  | halfNormal (sd : Param)
  | halfCauchy (beta : Param)
  | exponential (lam : Param)
  | shiftedExponential (lam : Param) (shift : ℚ)
  | studentT (nu mu sd : Param)
  | poisson (mu : Param)
  | dirichletSym (dim : ℕ) (a : ℚ)
  | multinomial (p : Param)
deriving DecidableEq

/-- The support of a distribution: the whole line, the strictly positive
reals, or the reals strictly above a given bound. -/
inductive Support where
  | real
  | positive
  | above (s : ℚ)
deriving DecidableEq

/-- Modelled from the spec: the declared support of each prior family
("Distributions with positive-only support (HalfNormal, HalfCauchy,
Exponential)", "floored above a minimum (commonly 1) via an additive
shift"). -/
def PDist.support : PDist → Support
  | .normal _ _ => .real
  | .halfNormal _ => .positive
  | .halfCauchy _ => .positive
  | .exponential _ => .positive
  | .shiftedExponential _ s => .above s
  | .studentT _ _ _ => .real
  | .poisson _ => .positive
  | .dirichletSym _ _ => .positive
  | .multinomial _ => .real

/-- The parameters of a distribution. -/
def PDist.params : PDist → List Param
  | .normal mu sd => [mu, sd]
  | .halfNormal sd => [sd]
  | .halfCauchy beta => [beta]
  | .exponential lam => [lam]
  | .shiftedExponential lam _ => [lam]
  | .studentT nu mu sd => [nu, mu, sd]
  | .poisson mu => [mu]
  | .dirichletSym _ _ => []
  | .multinomial p => [p]

/-- The variable names referenced by a distribution's parameters. -/
def PDist.refs (d : PDist) : List String :=
  d.params.filterMap fun p => match p with
    | .const _ => none
    | .var n => some n

/-- Modelled from the spec: one declaration of the model graph.  `random`
declares a RandomVariable with a prior, `determ` a DeterministicVariable,
`observe` an Observation binding a likelihood to a named data array, and
`observeGrouped` the source pattern of a StudentT likelihood whose mean and
scale parameters are vectors indexed by an integer-encoded group label array
(`mu[data_new["treatment_enc"].values]`).  Vector-shaped variables such as
`shape=(4,)` are flattened into one declaration per component, listed in
`muVars`/`sdVars`. -/
inductive Decl where
  | random (name : String) (d : PDist)
  | determ (name : String) (e : Expr)
  | observe (name : String) (d : PDist) (dataName : String)
  | observeGrouped (name : String) (nuP : Param) (muVars sdVars : List String)
      (enc : List ℕ) (dataName : String)
deriving DecidableEq

/-- The name of a declaration. -/
def Decl.name : Decl → String
  | .random n _ => n
  | .determ n _ => n
  | .observe n _ _ => n
  | .observeGrouped n _ _ _ _ _ => n

/-- The variable names referenced by a declaration. -/
def Decl.varRefs : Decl → List String
  | .random _ d => d.refs
  | .determ _ e => e.refs
  | .observe _ d _ => d.refs
  | .observeGrouped _ nuP muVars sdVars _ _ =>
      (PDist.refs (.studentT nuP (.const 0) (.const 0))) ++ muVars ++ sdVars

/-- The data array names referenced by a declaration. -/
def Decl.dataRefs : Decl → List String
  | .random _ _ => []
  | .determ _ _ => []
  | .observe _ _ dn => [dn]
  | .observeGrouped _ _ _ _ _ dn => [dn]

/-- Modelled from the spec: a model specification, "the closed set of
RandomVariables, DeterministicVariables, and Observations forming a joint
probability graph", together with the named constant data arrays that
observations may bind to. -/
structure ModelSpec where
  data : List (String × List ℚ)
  decls : List Decl
deriving DecidableEq

instance : Inhabited ModelSpec := ⟨⟨[], []⟩⟩

/-- Modelled from the spec error taxonomy: "ModelSpecificationError —
malformed graph, shape mismatch, unresolved reference, detected at
construction and always fatal/surfaced immediately". -/
inductive ConstructError where
  | modelSpecificationError (msg : String)
deriving DecidableEq

/-- Look up a named data array. -/
def lookupData (data : List (String × List ℚ)) (n : String) : Option (List ℚ) :=
  (data.find? fun kv => kv.1 == n).map Prod.snd

/-- Modelled from the spec: shape validity of a grouped observation — every
group index must be in bounds for the parameter vectors and the observation
array must pair one-to-one with the label array. -/
def Decl.shapeOk (data : List (String × List ℚ)) : Decl → Bool
  | .observeGrouped _ _ muVars sdVars enc dn =>
      (enc.all fun g => g < muVars.length && g < sdVars.length) &&
        (match lookupData data dn with
          | some xs => xs.length == enc.length
          | none => false)
  | _ => true

/-- Modelled from the spec: construction-time validation of one declaration
against the names already in scope.  Checks, in order: no duplicate name,
every variable reference resolves to a previously declared variable, every
data reference resolves to a known data array, and shapes agree. -/
def checkDecl (data : List (String × List ℚ)) (seen : List String) (d : Decl) :
    Option ConstructError :=
  if d.name ∈ seen then
    some (.modelSpecificationError ("duplicate variable name in " ++ d.name))
  else if !(d.varRefs.all fun r => r ∈ seen) then
    some (.modelSpecificationError ("unresolved variable reference in " ++ d.name))
  else if !(d.dataRefs.all fun r => r ∈ data.map Prod.fst) then
    some (.modelSpecificationError ("unresolved data reference in " ++ d.name))
  else if !(d.shapeOk data) then
    some (.modelSpecificationError ("shape mismatch in " ++ d.name))
  else
    none

/-- Validate a declaration list left to right, accumulating declared names. -/
def checkDecls (data : List (String × List ℚ)) :
    List Decl → List String → Option ConstructError
  | [], _ => none
  | d :: rest, seen =>
      match checkDecl data seen d with
      | some e => some e
      | none => checkDecls data rest (d.name :: seen)

/-- A validated model.  The spec's Model is the specification after
construction-time validation has succeeded. -/
abbrev Model := ModelSpec

/-- Modelled from the spec: model construction.  "Model-construction errors
(shape mismatch, cyclic dependency, unresolved reference) are fatal and
reported before any sampling begins."  Sampling consumes only the `Model`
produced on success, so no sampling iteration can execute for a
specification that fails here. -/
def buildModel (s : ModelSpec) : Except ConstructError Model :=
  match checkDecls s.data s.decls [] with
  | some e => .error e
  | none => .ok s

/-! ## The posterior sampler, modelled from the spec

The sampler is the spec's single component: gradient-informed MCMC over the
joint unnormalized posterior, with proposals made in an unconstrained space
and transformed back into the declared support for reporting.  The spec
fixes the observable contract (trace shape, support of reported values,
determinism given seed, local rejection of non-finite proposals, all-chains
failure semantics) but not the numeric details of densities, proposals or
step-size adaptation; those are given computable rational stand-ins below. -/

/-- Modelled from the spec: the transform from the sampler's unconstrained
proposal space onto the strictly positive reals — "proposals reparameterize
to an unconstrained space internally and transform back for reporting".
Any map landing strictly inside the support satisfies the spec; this
computable rational one is used. -/
def posQ (u : ℚ) : ℚ := if 0 ≤ u then u + 1 else 1 / (1 - u)

/-- The unconstrained-to-constrained transform for each support. -/
def constrainS : Support → ℚ → ℚ
  | .real, u => u
  | .positive, u => posQ u
  | .above s, u => s + posQ u

/-- Transform an unconstrained coordinate into the support of a prior. -/
def constrainD (d : PDist) (u : ℚ) : ℚ := constrainS d.support u

/-- A named assignment of values to variables; later bindings shadow. -/
abbrev Env := List (String × ℚ)

/-- Look up a variable value, defaulting to `0` for absent names. -/
def lookupEnv (env : Env) (n : String) : ℚ :=
  ((env.find? fun kv => kv.1 == n).map Prod.snd).getD 0

/-- Fuel-bounded Newton iteration for integer square roots (structural
recursion on the fuel, so it evaluates inside the kernel). -/
def sqrtNatAux : ℕ → ℕ → ℕ → ℕ
  | 0, _, g => g
  | fuel + 1, n, g =>
      let g2 := (g + n / g) / 2
      if g2 < g then sqrtNatAux fuel n g2 else g

/-- Integer square root by Newton iteration. -/
def sqrtNat (n : ℕ) : ℕ := sqrtNatAux n n (n + 1)

/-- Computable rational stand-in for `np.sqrt`, used when evaluating
DeterministicVariable expressions.  The claims about deterministic
recomputation are independent of the numeric choice. -/
def sqrtQ (q : ℚ) : ℚ :=
  if q ≤ 0 then 0 else (sqrtNat q.num.toNat : ℚ) / (sqrtNat q.den : ℚ)

/-- Evaluate a deterministic expression in an environment. -/
def evalExpr : Expr → Env → ℚ
  | .const q, _ => q
  | .var n, env => lookupEnv env n
  | .add a b, env => evalExpr a env + evalExpr b env
  | .sub a b, env => evalExpr a env - evalExpr b env
  | .mul a b, env => evalExpr a env * evalExpr b env
  | .div a b, env => evalExpr a env / evalExpr b env
  | .pow a n, env => (evalExpr a env) ^ n
  | .sqrt a, env => sqrtQ (evalExpr a env)

/-- Evaluate a distribution parameter in an environment. -/
def evalParam (env : Env) : Param → ℚ
  | .const q => q
  | .var n => lookupEnv env n

/-- Modelled from the spec: per-family log-density stand-ins.  `none` plays
the role of a non-finite log-density ("NumericalInstabilityError — non-finite
density encountered mid-sampling"): it arises exactly when a parameter or the
argument leaves the family's valid region.  The finite values are computable
rational surrogates for the true log-densities, whose transcendental parts
the spec does not constrain. -/
def normalLogp (mu sd x : ℚ) : Option ℚ :=
  if 0 < sd then some (-((x - mu) ^ 2 / (2 * sd ^ 2))) else none

/-- Half-normal log-density stand-in; see `normalLogp`. -/
def halfNormalLogp (sd x : ℚ) : Option ℚ :=
  if 0 < sd ∧ 0 < x then some (-(x ^ 2 / (2 * sd ^ 2))) else none

/-- Half-Cauchy log-density stand-in; see `normalLogp`. -/
def halfCauchyLogp (beta x : ℚ) : Option ℚ :=
  if 0 < beta ∧ 0 < x then some (-(x ^ 2 / beta ^ 2)) else none

/-- Exponential log-density stand-in; see `normalLogp`. -/
def exponentialLogp (lam x : ℚ) : Option ℚ :=
  if 0 < lam ∧ 0 < x then some (-(lam * x)) else none

/-- Shifted-exponential log-density stand-in; see `normalLogp`. -/
def shiftedExponentialLogp (lam shift x : ℚ) : Option ℚ :=
  if 0 < lam ∧ shift < x then some (-(lam * (x - shift))) else none

/-- Student-t log-density stand-in; see `normalLogp`. -/
def studentTLogp (nu mu sd x : ℚ) : Option ℚ :=
  if 0 < nu ∧ 0 < sd then some (-((x - mu) ^ 2 / (2 * sd ^ 2))) else none

/-- Poisson log-density stand-in; see `normalLogp`. -/
def poissonLogp (mu x : ℚ) : Option ℚ :=
  if 0 < mu ∧ 0 ≤ x then some (-((x - mu) ^ 2 / (2 * mu))) else none

/-- Symmetric-Dirichlet log-density stand-in; see `normalLogp`. -/
def dirichletSymLogp (a x : ℚ) : Option ℚ :=
  if 0 < a ∧ 0 < x then some 0 else none

/-- Multinomial log-density stand-in; see `normalLogp`. -/
def multinomialLogp (p x : ℚ) : Option ℚ :=
  if 0 < p then some 0 else none

/-- Log-density of one distribution at one value, with parameters looked up
in the environment. -/
def PDist.logp (d : PDist) (env : Env) (x : ℚ) : Option ℚ :=
  match d with
  | .normal mu sd => normalLogp (evalParam env mu) (evalParam env sd) x
  | .halfNormal sd => halfNormalLogp (evalParam env sd) x
  | .halfCauchy beta => halfCauchyLogp (evalParam env beta) x
  | .exponential lam => exponentialLogp (evalParam env lam) x
  | .shiftedExponential lam s => shiftedExponentialLogp (evalParam env lam) s x
  | .studentT nu mu sd =>
      studentTLogp (evalParam env nu) (evalParam env mu) (evalParam env sd) x
  | .poisson mu => poissonLogp (evalParam env mu) x
  | .dirichletSym _ a => dirichletSymLogp a x
  | .multinomial p => multinomialLogp (evalParam env p) x

/-- Sum of log-densities over a data array, `none` if any term is `none`. -/
def sumLogp (f : ℚ → Option ℚ) : List ℚ → Option ℚ
  | [] => some 0
  | x :: xs =>
      match f x, sumLogp f xs with
      | some a, some b => some (a + b)
      | _, _ => none

/-- Log-likelihood of a grouped StudentT observation: each data point is
paired with its integer group label, which indexes the per-group mean and
scale variable vectors. -/
def groupedLogp (env : Env) (nuP : Param) (muVars sdVars : List String) :
    List (ℚ × ℕ) → Option ℚ
  | [] => some 0
  | (x, g) :: rest =>
      let mu := lookupEnv env (muVars.getD g "")
      let sd := lookupEnv env (sdVars.getD g "")
      match studentTLogp (evalParam env nuP) mu sd x, groupedLogp env nuP muVars sdVars rest with
      | some a, some b => some (a + b)
      | _, _ => none

/-- Modelled from the spec: the joint unnormalized log-posterior, "the
product of every prior density and every likelihood density evaluated at the
current parameter values", in log space and over the unconstrained
coordinates of the random variables (one coordinate per `random`
declaration, in declaration order). -/
def logpDecls (data : List (String × List ℚ)) :
    List Decl → List ℚ → Env → Option ℚ
  | [], _, _ => some 0
  | .random n d :: rest, coords, env =>
      let v := constrainD d (coords.headD 0)
      match d.logp env v, logpDecls data rest coords.tail ((n, v) :: env) with
      | some a, some b => some (a + b)
      | _, _ => none
  | .determ n e :: rest, coords, env =>
      logpDecls data rest coords ((n, evalExpr e env) :: env)
  | .observe _ d dn :: rest, coords, env =>
      match lookupData data dn with
      | none => none
      | some xs =>
          match sumLogp (d.logp env) xs, logpDecls data rest coords env with
          | some a, some b => some (a + b)
          | _, _ => none
  | .observeGrouped _ nuP muVars sdVars enc dn :: rest, coords, env =>
      match lookupData data dn with
      | none => none
      | some xs =>
          match groupedLogp env nuP muVars sdVars (xs.zip enc),
              logpDecls data rest coords env with
          | some a, some b => some (a + b)
          | _, _ => none

/-- The model's joint unnormalized log-posterior at an unconstrained point. -/
def logp (m : Model) (p : List ℚ) : Option ℚ := logpDecls m.data m.decls p []

/-- Build the named draw recorded in the Trace for one unconstrained point:
every RandomVariable reports its constrained value, and every
DeterministicVariable is computed from the values of the variables declared
before it, exactly as the trace is populated. -/
def mkDraw : List Decl → List ℚ → Env → Env
  | [], _, _ => []
  | .random n d :: rest, coords, env =>
      let v := constrainD d (coords.headD 0)
      (n, v) :: mkDraw rest coords.tail ((n, v) :: env)
  | .determ n e :: rest, coords, env =>
      let v := evalExpr e env
      (n, v) :: mkDraw rest coords ((n, v) :: env)
  | .observe _ _ _ :: rest, coords, env => mkDraw rest coords env
  | .observeGrouped _ _ _ _ _ _ :: rest, coords, env => mkDraw rest coords env

/-- Number of random variables, hence of unconstrained coordinates. -/
def numRandom (m : Model) : ℕ :=
  (m.decls.filter fun d => match d with | .random _ _ => true | _ => false).length

/-- The names of the variables a Trace records: every RandomVariable and
every DeterministicVariable, in declaration order. -/
def varNames (m : Model) : List String :=
  m.decls.filterMap fun d => match d with
    | .random n _ => some n
    | .determ n _ => some n
    | _ => none

/-- Modelled from the spec: the pseudo-random generator driving proposal
generation ("seed: determinism of proposal generation").  A linear
congruential step on 64-bit naturals. -/
def lcg (s : ℕ) : ℕ := (6364136223846793005 * s + 1442695040888963407) % (2 ^ 64)

/-- A small rational perturbation derived from a generator state. -/
def jitter (s : ℕ) : ℚ := ((s % 7 : ℕ) : ℚ) / 8 - 3 / 8

/-- Propose a new unconstrained point by perturbing every coordinate,
threading the generator state. -/
def perturb : List ℚ → ℕ → List ℚ × ℕ
  | [], r => ([], r)
  | x :: xs, r =>
      let r1 := lcg r
      let rec2 := perturb xs r1
      ((x + jitter r1) :: rec2.1, rec2.2)

/-- The random slack in the acceptance criterion, a nonnegative rational
derived from the generator state. -/
def acceptGap (s : ℕ) : ℚ := ((s % 16 : ℕ) : ℚ) / 4

/-- Modelled from the spec: one MCMC iteration.  "Each iteration proposes a
new parameter-space point, accepts or rejects it according to a
detailed-balance criterion ... and appends the accepted point (or the
retained previous point, on rejection) to that chain's sample sequence."
A proposal with non-finite (`none`) log-density is rejected and the previous
point retained, never aborting the run. -/
def step (m : Model) (p : List ℚ) (r : ℕ) : List ℚ × ℕ :=
  let pr := perturb p r
  let r2 := lcg pr.2
  match logp m pr.1 with
  | none => (p, r2)
  | some lq =>
      match logp m p with
      | none => (pr.1, r2)
      | some lp => if lp ≤ lq + acceptGap pr.2 then (pr.1, r2) else (p, r2)

/-- Run `k` warm-up iterations, discarding the visited points.  "A warm-up
phase ... samples drawn during warm-up are discarded from the final
Trace." -/
def iterateSteps (m : Model) : ℕ → List ℚ → ℕ → List ℚ × ℕ
  | 0, p, r => (p, r)
  | k + 1, p, r =>
      let s := step m p r
      iterateSteps m k s.1 s.2

/-- Run `k` retained iterations, collecting the point after each one. -/
def collectDraws (m : Model) : ℕ → List ℚ → ℕ → List (List ℚ)
  | 0, _, _ => []
  | k + 1, p, r =>
      let s := step m p r
      s.1 :: collectDraws m k s.1 s.2

/-- Modelled from the spec: the sampling configuration — "number of draws,
number of independent chains, number of warm-up/tuning iterations, random
seed". -/
structure SamplerConfig where
  draws : ℕ
  chains : ℕ
  warmup : ℕ
  seed : ℕ
deriving DecidableEq

/-- Spec validity of a configuration: "Number of draws and chains must be
positive integers; warm-up length must be non-negative." -/
def SamplerConfig.valid (cfg : SamplerConfig) : Prop :=
  0 < cfg.draws ∧ 0 < cfg.chains

instance (cfg : SamplerConfig) : Decidable cfg.valid := by
  unfold SamplerConfig.valid; infer_instance

/-- One chain's contribution to the Trace: the retained unconstrained
points, the named draws reported for them, and the spec's per-chain failure
flag ("a chain that fails to produce any valid draws after warm-up is
reported as a failed chain"). -/
structure ChainResult where
  points : List (List ℚ)
  draws : List Env
  failed : Bool
deriving DecidableEq

instance : Inhabited ChainResult := ⟨⟨[], [], true⟩⟩

/-- A chain has produced no valid retained draw: the log-density is
non-finite at every retained point. -/
def noValidDraw (m : Model) (pts : List (List ℚ)) : Bool :=
  pts.all fun p => (logp m p).isNone

/-- The chain's seed-derived initial unconstrained position. -/
def initPoint (m : Model) (seed : ℕ) : List ℚ :=
  (perturb (List.replicate (numRandom m) 0) seed).1

/-- Run one chain: warm-up from the seeded initial position, then collect
the configured number of retained draws.  Suspect draws are kept and the
chain is flagged, per the spec: "flag that chain's draws as suspect in the
Trace rather than silently discarding them". -/
def runChain (m : Model) (cfg : SamplerConfig) (seed : ℕ) : ChainResult :=
  let p0 := initPoint m seed
  let w := iterateSteps m cfg.warmup p0 (lcg seed)
  let pts := collectDraws m cfg.draws w.1 w.2
  { points := pts
    draws := pts.map fun p => mkDraw m.decls p []
    failed := noValidDraw m pts }

/-- Run the configured number of independent chains, each with its own
derived seed. -/
def runChains (m : Model) (cfg : SamplerConfig) : List ChainResult :=
  (List.range cfg.chains).map fun i => runChain m cfg (lcg (cfg.seed + i))

/-- Modelled from the spec: the Trace, "for each named RandomVariable and
DeterministicVariable, an ordered sequence of sampled/derived values, one
per retained iteration, optionally keyed by independent chain index". -/
structure Trace where
  chains : List ChainResult
deriving DecidableEq

/-- Modelled from the spec error taxonomy for the sampling call itself:
invalid configuration, or "aggregate failure (all chains failed) is the only
condition that aborts the overall sampling call". -/
inductive SamplingError where
  | invalidConfiguration
  | allChainsFailed
deriving DecidableEq

/-- Modelled from the spec: the sampling call.  Runs the chains and
assembles the Trace; aborts only when the configuration is invalid or when
every chain failed to produce a valid retained draw. -/
def sample (m : Model) (cfg : SamplerConfig) : Except SamplingError Trace :=
  if cfg.draws = 0 ∨ cfg.chains = 0 then .error .invalidConfiguration
  else if (runChains m cfg).all fun c => c.failed then .error .allChainsFailed
  else .ok { chains := runChains m cfg }

/-- Value of a variable in one stored draw (`0` for absent names). -/
def tlookup (dr : Env) (n : String) : ℚ := lookupEnv dr n

/-- Modelled from the spec: a model's priors are proper (normalizable) when
every constant scale and rate parameter is strictly positive. -/
def properDist : PDist → Bool
  | .normal _ (.const sd) => decide (0 < sd)
  | .halfNormal (.const sd) => decide (0 < sd)
  | .halfCauchy (.const beta) => decide (0 < beta)
  | .exponential (.const lam) => decide (0 < lam)
  | .shiftedExponential (.const lam) _ => decide (0 < lam)
  | _ => true

/-- All priors of the model are proper. -/
def properPriors (m : Model) : Bool :=
  m.decls.all fun d => match d with
    | .random _ dd => properDist dd
    | _ => true

/-! ## The concrete models of `generalized-abcde-tests.ipynb` -/

/-- The 47 drug-group IQ measurements of the reference dataset. -/
def drug : List ℚ :=
  [99, 110, 107, 104, 103, 105, 105, 110, 99, 109, 100, 102, 104, 104, 100,
   104, 101, 104, 101, 100, 109, 104, 105, 112, 97, 106, 103, 101, 101, 104,
   96, 102, 101, 100, 92, 108, 97, 106, 96, 90, 109, 108, 105, 104, 110, 92,
   100]

/-- The 42 placebo-group IQ measurements of the reference dataset. -/
def placebo : List ℚ :=
  [95, 105, 103, 99, 104, 98, 103, 104, 102, 91, 97, 101, 100, 113, 98, 102,
   100, 105, 97, 94, 104, 92, 98, 105, 106, 101, 106, 105, 101, 105, 102, 95,
   91, 99, 96, 102, 94, 93, 99, 99, 113, 96]

/-- The two-group Student-t model `kruschke_model` of the source notebook:
Normal priors on the two means, HalfCauchy priors on the two scales, a
shared degrees-of-freedom variable `nu = pm.Exponential("nu", lam=1/29) + 1`
(modelled, following the spec, as an Exponential base shifted to have
support strictly above 1), StudentT likelihoods on the two observed arrays,
and the three Deterministic variables.  `pooled_sd` keeps the source's
expression `np.sqrt(np.power(sigma_drug, 2) + np.power(sigma_placebo, 2) / 2)`
verbatim, including its placement of the division. -/
def kruschke_model : ModelSpec where
  data := [("drug", drug), ("placebo", placebo)]
  decls :=
    [.random "mu_drug" (.normal (.const 100) (.const (100 ^ 2))),
     .random "mu_placebo" (.normal (.const 100) (.const (100 ^ 2))),
     .random "sigma_drug" (.halfCauchy (.const 100)),
     .random "sigma_placebo" (.halfCauchy (.const 100)),
     .random "nu" (.shiftedExponential (.const (1 / 29)) 1),
     .observe "drug" (.studentT (.var "nu") (.var "mu_drug") (.var "sigma_drug")) "drug",
     .observe "placebo"
       (.studentT (.var "nu") (.var "mu_placebo") (.var "sigma_placebo")) "placebo",
     .determ "diff_means" (.sub (.var "mu_drug") (.var "mu_placebo")),
     .determ "pooled_sd"
       (.sqrt (.add (.pow (.var "sigma_drug") 2)
         (.div (.pow (.var "sigma_placebo") 2) (.const 2)))),
     .determ "effect_size" (.div (.var "diff_means") (.var "pooled_sd"))]

/-- The four-group model `multigroup_model` of the source notebook, for an
arbitrary IQ array and integer-encoded treatment label array (the notebook
appends freshly randomized intervention groups, so the data is not fixed).
The `shape=(4,)` vectors `mu` and `sd` are flattened into four component
variables each; the likelihood indexes them by the label array, as in
`mu[data_new["treatment_enc"].values]`. -/
def multigroup_model (iq : List ℚ) (enc : List ℕ) : ModelSpec where
  data := [("IQ", iq)]
  decls :=
    [.random "mu_0" (.normal (.const 100) (.const 10)),
     .random "mu_1" (.normal (.const 100) (.const 10)),
     .random "mu_2" (.normal (.const 100) (.const 10)),
     .random "mu_3" (.normal (.const 100) (.const 10)),
     .random "sd_0" (.halfCauchy (.const 10)),
     .random "sd_1" (.halfCauchy (.const 10)),
     .random "sd_2" (.halfCauchy (.const 10)),
     .random "sd_3" (.halfCauchy (.const 10)),
     .random "nu" (.shiftedExponential (.const (1 / 29)) 1),
     .observeGrouped "like" (.var "nu")
       ["mu_0", "mu_1", "mu_2", "mu_3"] ["sd_0", "sd_1", "sd_2", "sd_3"]
       enc "IQ"]

/-- The Dirichlet-Multinomial model of the incubator notebook.  The notebook
references an array `healthy_reads` that is never defined anywhere in the
repository (the only data loaded is the external `MicrobiomeWithMetadata.csv`
under the name `microbiome`), so its data environment contains no binding for
it.  The `for` loop over `healthy_reads.shape[0]` cannot be unrolled for the
same reason; one representative Multinomial observation stands for it. -/
def dirichlet_model : ModelSpec where
  data := []
  decls :=
    [.random "mu" (.halfNormal (.const (100 ^ 2))),
     .observe "n_seq_reads" (.poisson (.var "mu")) "healthy_reads",
     .random "proportions" (.dirichletSym 3 1),
     .observe "draws_0" (.multinomial (.var "proportions")) "healthy_reads"]

/-! ## The metadata dictionary and its serialized document -/

/-- The `sex` label list of the metadata-dictionary cell. -/
def sexLabels : List String := ["Male", "Female"]

/-- The `donor` label list of the metadata-dictionary cell. -/
def donorLabels : List String :=
  ["HMouseLFPP", "CONVR", "Human", "Fresh", "Frozen", "HMouseWestern", "CONVD"]

/-- The `diet` label list of the metadata-dictionary cell. -/
def dietLabels : List String :=
  ["LFPP", "Western", "CARBR", "FATR", "Suckling", "Human"]

/-- The `source` label list of the metadata-dictionary cell. -/
def sourceLabels : List String :=
  ["Cecum1", "Cecum2", "Colon1", "Colon2", "Feces", "SI1", "SI13", "SI15",
   "SI2", "SI5", "SI9", "Stomach", "Cecum"]

/-- The `collection_met` label list of the metadata-dictionary cell. -/
def collectionMetLabels : List String := ["Contents", "Scraping"]

/-- The metadata dictionary `md`: a mapping from categorical field name to an
ordered mapping of integer code to string label, built by enumerating each
label list, exactly as the notebook's `for i, s in enumerate(...)` loops
populate the `defaultdict`. -/
def md : List (String × List (ℕ × String)) :=
  [("sex", sexLabels.enum),
   ("donor", donorLabels.enum),
   ("diet", dietLabels.enum),
   ("source", sourceLabels.enum),
   ("collection_met", collectionMetLabels.enum)]

/-- Modelled from the spec: one line of the structured key-value document the
metadata dictionary is read/written as (the notebook delegates the concrete
text rendering to an external serialization library): either a field-name
line or an indented `code: label` entry line. -/
inductive DocLine where
  | key (k : String)
  | entry (code : ℕ) (label : String)
deriving DecidableEq

/-- Modelled from the spec: serialize the metadata dictionary to the
structured key-value document — each field name followed by its ordered
code-to-label entries. -/
def dumpDoc : List (String × List (ℕ × String)) → List DocLine
  | [] => []
  | (k, es) :: rest =>
      .key k :: (es.map fun ce => .entry ce.1 ce.2) ++ dumpDoc rest

/-- Accumulate entry lines under the current field until the next field-name
line, then recurse. -/
def parseDocAux : List DocLine → String → List (ℕ × String) →
    List (String × List (ℕ × String))
  | [], k, es => [(k, es.reverse)]
  | .key k2 :: rest, k, es => (k, es.reverse) :: parseDocAux rest k2 []
  | .entry c l :: rest, k, es => parseDocAux rest k ((c, l) :: es)

/-- Modelled from the spec: deserialize a structured key-value document back
into a metadata dictionary.  A document whose first line is not a field name
is malformed. -/
def parseDoc : List DocLine → Option (List (String × List (ℕ × String)))
  | [] => some []
  | .key k :: rest => some (parseDocAux rest k [])
  | .entry _ _ :: _ => none

/-! ## The `ECDF` helper of `generalized-abcde-tests.ipynb` -/

/-- Running cumulative sums starting from `acc`: `np.cumsum` shifted by an
accumulator. -/
def cumsumFrom (acc : ℚ) : List ℚ → List ℚ
  | [] => []
  | x :: xs => (acc + x) :: cumsumFrom (acc + x) xs

/-- `np.cumsum`: the list of running partial sums. -/
def cumsum (l : List ℚ) : List ℚ := cumsumFrom 0 l

/-- The notebook's `ECDF` function, translated directly from the source:
`x = np.sort(data)`, `y = np.cumsum(x) / np.sum(x)`. -/
def ECDF (data : List ℚ) : List ℚ × List ℚ :=
  let x := data.insertionSort (· ≤ ·)
  (x, (cumsum x).map fun v => v / x.sum)

/-! ## Basic facts about the support transform -/

/-- The positive transform lands strictly inside the positive reals. -/
theorem posQ_pos (u : ℚ) : 0 < posQ u := by
  unfold posQ
  split
  next h => linarith
  next h =>
    have h2 : (0 : ℚ) < 1 - u := by linarith
    positivity

/-- A constrained value for a positive-support prior is strictly positive. -/
theorem constrainS_positive (u : ℚ) : 0 < constrainS .positive u := posQ_pos u

/-- A constrained value for a shifted-support prior is strictly above the
shift. -/
theorem constrainS_above (s u : ℚ) : s < constrainS (.above s) u := by
  have := posQ_pos u
  simp only [constrainS]
  linarith

/-! ## Facts about the draws recorded in a Trace -/

/-- Every named value in a recorded draw comes from a declaration of that
name: a RandomVariable's value is the constrained image of some
unconstrained coordinate, and a DeterministicVariable's value is its
defining expression evaluated in some environment. -/
theorem mkDraw_mem {decls : List Decl} {coords : List ℚ} {env : Env}
    {n : String} {v : ℚ} (h : (n, v) ∈ mkDraw decls coords env) :
    (∃ d u, Decl.random n d ∈ decls ∧ v = constrainD d u) ∨
      (∃ e env2, Decl.determ n e ∈ decls ∧ v = evalExpr e env2) := by
  induction decls generalizing coords env with
  | nil => simp [mkDraw] at h
  | cons d rest ih =>
    cases d with
    | random n2 dd =>
      simp only [mkDraw, List.mem_cons] at h
      rcases h with h | h
      · rw [Prod.mk.injEq] at h
        obtain ⟨h1, h2⟩ := h
        subst h1
        exact .inl ⟨dd, coords.headD 0, List.mem_cons_self .., h2⟩
      · rcases ih h with ⟨d3, u, hm, he⟩ | ⟨e3, env3, hm, he⟩
        · exact .inl ⟨d3, u, List.mem_cons_of_mem _ hm, he⟩
        · exact .inr ⟨e3, env3, List.mem_cons_of_mem _ hm, he⟩
    | determ n2 e =>
      simp only [mkDraw, List.mem_cons] at h
      rcases h with h | h
      · rw [Prod.mk.injEq] at h
        obtain ⟨h1, h2⟩ := h
        subst h1
        exact .inr ⟨e, env, List.mem_cons_self .., h2⟩
      · rcases ih h with ⟨d3, u, hm, he⟩ | ⟨e3, env3, hm, he⟩
        · exact .inl ⟨d3, u, List.mem_cons_of_mem _ hm, he⟩
        · exact .inr ⟨e3, env3, List.mem_cons_of_mem _ hm, he⟩
    | observe n2 dd dn =>
      simp only [mkDraw] at h
      rcases ih h with ⟨d3, u, hm, he⟩ | ⟨e3, env3, hm, he⟩
      · exact .inl ⟨d3, u, List.mem_cons_of_mem _ hm, he⟩
      · exact .inr ⟨e3, env3, List.mem_cons_of_mem _ hm, he⟩
    | observeGrouped n2 nuP mv sv enc dn =>
      simp only [mkDraw] at h
      rcases ih h with ⟨d3, u, hm, he⟩ | ⟨e3, env3, hm, he⟩
      · exact .inl ⟨d3, u, List.mem_cons_of_mem _ hm, he⟩
      · exact .inr ⟨e3, env3, List.mem_cons_of_mem _ hm, he⟩

/-- The names of a recorded draw are exactly the declared RandomVariable and
DeterministicVariable names, in declaration order. -/
theorem mkDraw_names (decls : List Decl) (coords : List ℚ) (env : Env) :
    (mkDraw decls coords env).map Prod.fst = decls.filterMap (fun d => match d with
      | .random n _ => some n
      | .determ n _ => some n
      | _ => none) := by
  induction decls generalizing coords env with
  | nil => simp [mkDraw]
  | cons d rest ih =>
    cases d with
    | random n2 dd => simp [mkDraw, List.filterMap_cons, ih]
    | determ n2 e => simp [mkDraw, List.filterMap_cons, ih]
    | observe n2 dd dn => simp [mkDraw, List.filterMap_cons, ih]
    | observeGrouped n2 nuP mv sv enc dn => simp [mkDraw, List.filterMap_cons, ih]

/-- The retained portion of a chain has exactly the configured length. -/
theorem collectDraws_length (m : Model) (k : ℕ) (p : List ℚ) (r : ℕ) :
    (collectDraws m k p r).length = k := by
  induction k generalizing p r with
  | zero => rfl
  | succ k ih => simp [collectDraws, ih]

/-- A successful sampling call returns exactly the assembled chains. -/
theorem sample_ok_chains {m : Model} {cfg : SamplerConfig} {tr : Trace}
    (h : sample m cfg = .ok tr) : tr.chains = runChains m cfg := by
  unfold sample at h
  split at h
  · exact absurd h (by simp)
  · split at h
    · exact absurd h (by simp)
    · cases h; rfl

/-- Every chain of a sampling result is a `runChain` output. -/
theorem sample_ok_mem_chains {m : Model} {cfg : SamplerConfig} {tr : Trace}
    {c : ChainResult} (h : sample m cfg = .ok tr) (hc : c ∈ tr.chains) :
    ∃ s, c = runChain m cfg s := by
  rw [sample_ok_chains h] at hc
  unfold runChains at hc
  obtain ⟨i, _, he⟩ := List.mem_map.mp hc
  exact ⟨lcg (cfg.seed + i), he.symm⟩

/-- Every draw of a `runChain` result is the recorded draw of one of its
retained points. -/
theorem runChain_draws_mem {m : Model} {cfg : SamplerConfig} {s : ℕ}
    {dr : Env} (h : dr ∈ (runChain m cfg s).draws) :
    ∃ p, dr = mkDraw m.decls p [] := by
  unfold runChain at h
  simp only [List.mem_map] at h
  obtain ⟨p, _, he⟩ := h
  exact ⟨p, he.symm⟩

/-! ## Construction-time validation invariants -/

/-- What a passed per-declaration check certifies. -/
theorem checkDecl_none {data : List (String × List ℚ)} {seen : List String}
    {d : Decl} (h : checkDecl data seen d = none) :
    d.name ∉ seen ∧ (∀ r ∈ d.varRefs, r ∈ seen) ∧
      (∀ r ∈ d.dataRefs, r ∈ data.map Prod.fst) := by
  unfold checkDecl at h
  split_ifs at h with h1 h2 h3 h4
  refine ⟨h1, ?_, ?_⟩
  · intro r hr
    have h2b : (d.varRefs.all fun r => decide (r ∈ seen)) = true := by
      simpa using h2
    simpa using List.all_eq_true.mp h2b r hr
  · intro r hr
    have h3b : (d.dataRefs.all fun r => decide (r ∈ data.map Prod.fst)) = true := by
      simpa using h3
    simpa using List.all_eq_true.mp h3b r hr

/-- The invariant established by a successful left-to-right validation pass:
no declared name repeats or clashes with the ambient scope, and every
variable reference of the `i`-th declaration resolves either into the
ambient scope or to a declaration strictly before position `i`; every data
reference resolves to a known data array. -/
theorem checkDecls_ok {data : List (String × List ℚ)} :
    ∀ {decls : List Decl} {seen : List String},
    checkDecls data decls seen = none →
    (∀ n ∈ seen, n ∉ decls.map Decl.name) ∧
      (decls.map Decl.name).Nodup ∧
      (∀ i (hi : i < decls.length),
        (∀ r ∈ (decls.get ⟨i, hi⟩).varRefs,
          r ∈ seen ∨ r ∈ (decls.map Decl.name).take i) ∧
        (∀ r ∈ (decls.get ⟨i, hi⟩).dataRefs, r ∈ data.map Prod.fst)) := by
  intro decls
  induction decls with
  | nil =>
    intro seen h
    refine ⟨by simp, by simp, ?_⟩
    intro i hi
    exact absurd hi (by simp)
  | cons d rest ih =>
    intro seen h
    unfold checkDecls at h
    revert h
    cases hd : checkDecl data seen d with
    | some e => intro h; exact absurd h (by simp)
    | none =>
      intro h
      obtain ⟨hname, hvar, hdata⟩ := checkDecl_none hd
      obtain ⟨ihseen, ihnodup, ihidx⟩ := ih h
      have hdnotrest : d.name ∉ rest.map Decl.name :=
        ihseen d.name (List.mem_cons_self ..)
      refine ⟨?_, ?_, ?_⟩
      · intro n hn
        simp only [List.map_cons, List.mem_cons]
        rintro (hh | hh)
        · exact hname (hh ▸ hn)
        · exact ihseen n (List.mem_cons_of_mem _ hn) hh
      · exact List.nodup_cons.mpr ⟨hdnotrest, ihnodup⟩
      · intro i hi
        match i with
        | 0 =>
          refine ⟨?_, ?_⟩
          · intro r hr
            exact .inl (hvar r hr)
          · intro r hr
            exact hdata r hr
        | j + 1 =>
          have hj : j < rest.length := by
            simpa using hi
          obtain ⟨ihv, ihd⟩ := ihidx j hj
          refine ⟨?_, ?_⟩
          · intro r hr
            rcases ihv r (by exact hr) with hcase | hcase
            · rcases List.mem_cons.mp hcase with hh | hh
              · right
                simp only [List.map_cons, List.take_succ_cons]
                exact hh ▸ List.mem_cons_self ..
              · exact .inl hh
            · right
              simp only [List.map_cons, List.take_succ_cons]
              exact List.mem_cons_of_mem _ hcase
          · intro r hr
            exact ihd r hr

/-- A specification accepted by `buildModel` is returned unchanged. -/
theorem build_ok_eq {s : ModelSpec} {m : Model} (h : buildModel s = .ok m) :
    m = s := by
  unfold buildModel at h
  revert h
  cases checkDecls s.data s.decls [] with
  | some e => intro h; exact absurd h (by simp)
  | none => intro h; cases h; rfl

/-- A specification accepted by `buildModel` passed validation. -/
theorem build_ok_check {s : ModelSpec} {m : Model} (h : buildModel s = .ok m) :
    checkDecls s.data s.decls [] = none := by
  unfold buildModel at h
  revert h
  cases hc : checkDecls s.data s.decls [] with
  | some e => intro h; exact absurd h (by simp)
  | none => intro h; rfl

/-- Successful construction implies the declared names are distinct. -/
theorem build_ok_nodup {s : ModelSpec} {m : Model} (h : buildModel s = .ok m) :
    (s.decls.map Decl.name).Nodup :=
  (checkDecls_ok (build_ok_check h)).2.1

/-- Successful construction implies every variable reference of the `i`-th
declaration resolves to a strictly earlier declaration. -/
theorem build_ok_refs {s : ModelSpec} {m : Model} (h : buildModel s = .ok m)
    (i : ℕ) (hi : i < s.decls.length) :
    ∀ r ∈ (s.decls.get ⟨i, hi⟩).varRefs,
      r ∈ (s.decls.map Decl.name).take i := by
  intro r hr
  rcases ((checkDecls_ok (build_ok_check h)).2.2 i hi).1 r hr with hc | hc
  · exact absurd hc (by simp)
  · exact hc

/-- Successful construction implies every data reference resolves to a known
data array. -/
theorem build_ok_dataRefs {s : ModelSpec} {m : Model}
    (h : buildModel s = .ok m) {d : Decl} (hd : d ∈ s.decls) :
    ∀ r ∈ d.dataRefs, r ∈ s.data.map Prod.fst := by
  obtain ⟨⟨i, hi⟩, hget⟩ := List.get_of_mem hd
  exact hget ▸ ((checkDecls_ok (build_ok_check h)).2.2 i hi).2

/-- Successful construction implies every distribution-parameter or
expression variable reference resolves to a declared variable. -/
theorem build_ok_varRefs {s : ModelSpec} {m : Model}
    (h : buildModel s = .ok m) {d : Decl} (hd : d ∈ s.decls) :
    ∀ r ∈ d.varRefs, r ∈ s.decls.map Decl.name := by
  obtain ⟨⟨i, hi⟩, hget⟩ := List.get_of_mem hd
  intro r hr
  have hr2 : r ∈ (s.decls.get ⟨i, hi⟩).varRefs := by
    rw [hget]
    exact hr
  exact List.take_subset _ _ (build_ok_refs h i hi r hr2)

/-! ## Acyclicity of the validated dependency graph -/

/-- Membership in a prefix bounds the first occurrence index. -/
theorem indexOf_lt_of_mem_take {l : List String} :
    ∀ {i : ℕ} {r : String}, r ∈ l.take i → l.indexOf r < i := by
  induction l with
  | nil => intro i r hr; simp at hr
  | cons a l ih =>
    intro i r hr
    match i with
    | 0 => simp at hr
    | j + 1 =>
      rw [List.take_succ_cons] at hr
      by_cases hra : r = a
      · subst hra
        rw [List.indexOf_cons_self]
        exact Nat.succ_pos j
      · rcases List.mem_cons.mp hr with hh | hh
        · exact absurd hh.symm (fun hhh => hra hhh.symm)
        · rw [List.indexOf_cons_ne _ (fun hhh => hra hhh.symm)]
          exact Nat.succ_lt_succ (ih hh)

/-- In a duplicate-free list the index of the `i`-th element is `i`. -/
theorem indexOf_get_of_nodup {l : List String} (hn : l.Nodup) {i : ℕ}
    (hi : i < l.length) {x : String} (hx : l.get ⟨i, hi⟩ = x) :
    l.indexOf x = i := by
  have hmem : x ∈ l := hx ▸ l.get_mem i hi
  have hlt : l.indexOf x < l.length := List.indexOf_lt_length.mpr hmem
  have hgx : l.get ⟨l.indexOf x, hlt⟩ = x := List.indexOf_get hlt
  have hfin : (⟨l.indexOf x, hlt⟩ : Fin l.length) = ⟨i, hi⟩ :=
    hn.get_inj_iff.mp (by rw [hgx, hx])
  simpa using congrArg Fin.val hfin

/-- Direct dependency of one DeterministicVariable on another variable: the
former's defining expression references the latter.  The "depends on,
directly or transitively" relation of the spec is the transitive closure
`Relation.TransGen (directDep s)`. -/
def directDep (s : ModelSpec) (x y : String) : Prop :=
  ∃ e, Decl.determ x e ∈ s.decls ∧ y ∈ e.refs

/-- In a successfully constructed model, every direct dependency points
strictly backwards in declaration order. -/
theorem build_ok_dep_lt {s : ModelSpec} {m : Model}
    (h : buildModel s = .ok m) {x y : String} (hd : directDep s x y) :
    (s.decls.map Decl.name).indexOf y < (s.decls.map Decl.name).indexOf x := by
  obtain ⟨e, hmem, hy⟩ := hd
  obtain ⟨⟨i, hi⟩, hget⟩ := List.get_of_mem hmem
  have hname : (s.decls.map Decl.name).get ⟨i, by simpa using hi⟩ = x := by
    have hg : s.decls[i] = Decl.determ x e := hget
    simp [List.get_eq_getElem, List.getElem_map, hg, Decl.name]
  have hidx : (s.decls.map Decl.name).indexOf x = i :=
    indexOf_get_of_nodup (build_ok_nodup h) _ hname
  have hrefs := build_ok_refs h i hi
  have hyref : y ∈ (s.decls.get ⟨i, hi⟩).varRefs := by
    rw [hget]
    exact hy
  have : y ∈ (s.decls.map Decl.name).take i := hrefs y hyref
  rw [hidx]
  exact indexOf_lt_of_mem_take this

/-! ## Support of reported values -/

/-- In any successfully constructed and sampled model, the value a Trace
stores for a RandomVariable with positive or shifted support is strictly
inside that support. -/
theorem trace_support {s : ModelSpec} {m : Model} {cfg : SamplerConfig}
    {tr : Trace} (hb : buildModel s = .ok m) (hs : sample m cfg = .ok tr)
    {c : ChainResult} (hc : c ∈ tr.chains) {dr : Env} (hdr : dr ∈ c.draws)
    {n : String} {v : ℚ} (hnv : (n, v) ∈ dr) {d : PDist}
    (hd : Decl.random n d ∈ m.decls) :
    (d.support = .positive → 0 < v) ∧ (∀ sh, d.support = .above sh → sh < v) := by
  have hms := build_ok_eq hb
  subst hms
  obtain ⟨seed, hcr⟩ := sample_ok_mem_chains hs hc
  subst hcr
  obtain ⟨p, hp⟩ := runChain_draws_mem hdr
  subst hp
  rcases mkDraw_mem hnv with ⟨d2, u, hm2, he⟩ | ⟨e2, env2, hm2, he⟩
  · have hinj := List.inj_on_of_nodup_map (build_ok_nodup hb)
    have heq : Decl.random n d = Decl.random n d2 :=
      hinj hd hm2 rfl
    have hd2 : d2 = d := by
      cases heq
      rfl
    subst hd2
    subst he
    constructor
    · intro hsup
      unfold constrainD
      rw [hsup]
      exact constrainS_positive u
    · intro sh hsup
      unfold constrainD
      rw [hsup]
      exact constrainS_above sh u
  · have hinj := List.inj_on_of_nodup_map (build_ok_nodup hb)
    have heq : Decl.random n d = Decl.determ n e2 :=
      hinj hd hm2 rfl
    exact absurd heq (by simp)

/-! ## Claim theorems -/

/-- Reference configuration used by the concrete witnesses below. -/
def cfg0 : SamplerConfig := ⟨1, 1, 0, 0⟩

/-- C5. A Model whose DeterministicVariable dependency graph has a cycle —
a variable depending on itself directly or transitively through the
`directDep` relation — fails at construction with a
`ModelSpecificationError`, and hence before any sampling iteration can
execute (sampling only accepts the Model that `buildModel` returns on
success). -/
theorem cyclic_dependency_fails_construction (s : ModelSpec) (a : String)
    (h : Relation.TransGen (directDep s) a a) :
    ∃ msg, buildModel s = .error (.modelSpecificationError msg) := by
  cases hb : buildModel s with
  | error e =>
    cases e with
    | modelSpecificationError msg => exact ⟨msg, rfl⟩
  | ok m =>
    exfalso
    have key : ∀ x y, Relation.TransGen (directDep s) x y →
        (s.decls.map Decl.name).indexOf y < (s.decls.map Decl.name).indexOf x := by
      intro x y hxy
      induction hxy with
      | single h1 => exact build_ok_dep_lt hb h1
      | tail h1 h2 ih => exact lt_trans (build_ok_dep_lt hb h2) ih
    exact lt_irrefl _ (key a a h)

/-- The two-declaration cyclic specification `A = f(B)`, `B = f(A)` of the
spec's end-to-end error scenario. -/
def cyclicSpec : ModelSpec where
  data := []
  decls := [.determ "A" (.var "B"), .determ "B" (.var "A")]

/-- Witness for C5: the concrete two-variable cycle is rejected at
construction with a `ModelSpecificationError`. -/
theorem cyclic_dependency_fails_construction_witness :
    ∃ msg, buildModel cyclicSpec = .error (.modelSpecificationError msg) :=
  have h1 : directDep cyclicSpec "A" "B" := ⟨.var "B", by decide, by decide⟩
  have h2 : directDep cyclicSpec "B" "A" := ⟨.var "A", by decide, by decide⟩
  cyclic_dependency_fails_construction cyclicSpec "A"
    (Relation.TransGen.head h1 (Relation.TransGen.single h2))

/-- C6. A model specification with an unresolved reference — a distribution
parameter or expression referencing an undeclared variable, or an
observed-data name not bound to a known data array — fails immediately at
construction with a `ModelSpecificationError`: concretely, the
Dirichlet-Multinomial model referencing the undefined `healthy_reads` array
is rejected, and in general a specification accepted by `buildModel` has
only resolvable variable references and only resolvable data references, so
any unresolved reference of either kind makes construction fail before any
sampling can begin. -/
theorem unresolved_reference_fails_construction :
    buildModel dirichlet_model =
      .error (.modelSpecificationError "unresolved data reference in n_seq_reads") ∧
    (∀ s (m : Model), buildModel s = .ok m →
      ∀ d ∈ s.decls,
        (∀ r ∈ d.varRefs, r ∈ s.decls.map Decl.name) ∧
        (∀ r ∈ d.dataRefs, r ∈ s.data.map Prod.fst)) := by
  constructor
  · decide
  · intro s m h d hd
    exact ⟨build_ok_varRefs h hd, build_ok_dataRefs h hd⟩

/-- Witness for C6: the general resolution consequence instantiated at the
successfully constructed two-group model and its drug observation, for both
reference kinds — the distribution parameter `nu` resolves to a declared
variable and the observed-data name `drug` to a known data array. -/
theorem unresolved_reference_fails_construction_witness :
    "nu" ∈ kruschke_model.decls.map Decl.name ∧
      "drug" ∈ kruschke_model.data.map Prod.fst :=
  ⟨(unresolved_reference_fails_construction.2 kruschke_model kruschke_model
      (by decide)
      (.observe "drug" (.studentT (.var "nu") (.var "mu_drug") (.var "sigma_drug")) "drug")
      (by decide)).1 "nu" (by decide),
    (unresolved_reference_fails_construction.2 kruschke_model kruschke_model
      (by decide)
      (.observe "drug" (.studentT (.var "nu") (.var "mu_drug") (.var "sigma_drug")) "drug")
      (by decide)).2 "drug" (by decide)⟩

/-- The two-group model is accepted by model construction. -/
theorem kruschke_model_ok : buildModel kruschke_model = .ok kruschke_model := by
  decide

/-- C1. Positive-only-support variables stay strictly above their declared
lower bound in every stored draw of every chain: the HalfCauchy scales
`sigma_drug`, `sigma_placebo` of the two-group model and the shifted
degrees-of-freedom variable `nu` (lower bound 1); the HalfCauchy `sd`
components and `nu` of the multigroup model; and in general every
HalfNormal/HalfCauchy/Exponential variable of any constructed model (which
covers the Dirichlet model's HalfNormal `mu`, were that model able to
construct and sample). -/
theorem positive_support_variables :
    (∀ cfg tr, sample kruschke_model cfg = .ok tr →
      ∀ c ∈ tr.chains, ∀ dr ∈ c.draws, ∀ v : ℚ,
        (("sigma_drug", v) ∈ dr → 0 < v) ∧
        (("sigma_placebo", v) ∈ dr → 0 < v) ∧
        (("nu", v) ∈ dr → 1 < v)) ∧
    (∀ iq enc (m : Model) cfg tr, buildModel (multigroup_model iq enc) = .ok m →
      sample m cfg = .ok tr →
      ∀ c ∈ tr.chains, ∀ dr ∈ c.draws, ∀ v : ℚ,
        ((("sd_0", v) ∈ dr ∨ ("sd_1", v) ∈ dr ∨ ("sd_2", v) ∈ dr ∨
            ("sd_3", v) ∈ dr) → 0 < v) ∧
        (("nu", v) ∈ dr → 1 < v)) ∧
    (∀ s (m : Model) cfg tr, buildModel s = .ok m → sample m cfg = .ok tr →
      ∀ c ∈ tr.chains, ∀ dr ∈ c.draws, ∀ (n : String) (v : ℚ) (d : PDist),
        (n, v) ∈ dr → Decl.random n d ∈ m.decls →
        (d.support = .positive → 0 < v) ∧
        (∀ sh, d.support = .above sh → sh < v)) := by
  refine ⟨?_, ?_, ?_⟩
  · intro cfg tr hs c hc dr hdr v
    refine ⟨?_, ?_, ?_⟩
    · intro hv
      exact (trace_support kruschke_model_ok hs hc hdr hv
        (show Decl.random "sigma_drug" (.halfCauchy (.const 100)) ∈
          kruschke_model.decls by decide)).1 rfl
    · intro hv
      exact (trace_support kruschke_model_ok hs hc hdr hv
        (show Decl.random "sigma_placebo" (.halfCauchy (.const 100)) ∈
          kruschke_model.decls by decide)).1 rfl
    · intro hv
      exact (trace_support kruschke_model_ok hs hc hdr hv
        (show Decl.random "nu" (.shiftedExponential (.const (1 / 29)) 1) ∈
          kruschke_model.decls by decide)).2 1 rfl
  · intro iq enc m cfg tr hb hs c hc dr hdr v
    have hms := build_ok_eq hb
    subst hms
    refine ⟨?_, ?_⟩
    · intro hv
      have hmem : ∀ nm,
          Decl.random nm (.halfCauchy (.const 10)) ∈ (multigroup_model iq enc).decls →
          (nm, v) ∈ dr → 0 < v := by
        intro nm hmm hvv
        exact (trace_support hb hs hc hdr hvv hmm).1 rfl
      rcases hv with hv | hv | hv | hv
      · exact hmem "sd_0" (by
          exact List.mem_cons_of_mem _ (List.mem_cons_of_mem _
            (List.mem_cons_of_mem _ (List.mem_cons_of_mem _
              (List.mem_cons_self ..))))) hv
      · exact hmem "sd_1" (by
          exact List.mem_cons_of_mem _ (List.mem_cons_of_mem _
            (List.mem_cons_of_mem _ (List.mem_cons_of_mem _
              (List.mem_cons_of_mem _ (List.mem_cons_self ..)))))) hv
      · exact hmem "sd_2" (by
          exact List.mem_cons_of_mem _ (List.mem_cons_of_mem _
            (List.mem_cons_of_mem _ (List.mem_cons_of_mem _
              (List.mem_cons_of_mem _ (List.mem_cons_of_mem _
                (List.mem_cons_self ..))))))) hv
      · exact hmem "sd_3" (by
          exact List.mem_cons_of_mem _ (List.mem_cons_of_mem _
            (List.mem_cons_of_mem _ (List.mem_cons_of_mem _
              (List.mem_cons_of_mem _ (List.mem_cons_of_mem _
                (List.mem_cons_of_mem _ (List.mem_cons_self ..)))))))) hv
    · intro hv
      have hmm : Decl.random "nu" (.shiftedExponential (.const (1 / 29)) 1) ∈
          (multigroup_model iq enc).decls :=
        List.mem_cons_of_mem _ (List.mem_cons_of_mem _
          (List.mem_cons_of_mem _ (List.mem_cons_of_mem _
            (List.mem_cons_of_mem _ (List.mem_cons_of_mem _
              (List.mem_cons_of_mem _ (List.mem_cons_of_mem _
                (List.mem_cons_self ..))))))))
      exact (trace_support hb hs hc hdr hv hmm).2 1 rfl
  · intro s m cfg tr hb hs c hc dr hdr n v d hv hmm
    exact trace_support hb hs hc hdr hv hmm

/-- The Trace obtained from the two-group model at the reference
configuration. -/
def ktrace0 : Trace := { chains := runChains kruschke_model cfg0 }

/-- The single chain of `ktrace0`. -/
def kchain0 : ChainResult := runChain kruschke_model cfg0 (lcg 0)

/-- The single stored draw of `kchain0`. -/
def kdraw0 : Env := kchain0.draws.headD []

/-- The multigroup model at a one-point dataset. -/
def mgModel0 : ModelSpec := multigroup_model [100] [0]

/-- The Trace obtained from `mgModel0` at the reference configuration. -/
def mgtrace0 : Trace := { chains := runChains mgModel0 cfg0 }

/-- The single chain of `mgtrace0`. -/
def mgchain0 : ChainResult := runChain mgModel0 cfg0 (lcg 0)

/-- The single stored draw of `mgchain0`. -/
def mgdraw0 : Env := mgchain0.draws.headD []

/-- Witness for C1: concrete sampled values of both models are strictly
inside their declared supports. -/
theorem positive_support_variables_witness :
    (0 < (5 / 4 : ℚ)) ∧ (1 < (5 / 2 : ℚ)) ∧ (0 < (3 / 2 : ℚ)) ∧
      (1 < (5 / 3 : ℚ)) := by
  refine ⟨?_, ?_, ?_, ?_⟩
  · exact ((positive_support_variables.1 cfg0 ktrace0 (by decide) kchain0
      (by decide) kdraw0 (by decide) (5 / 4)).1 (by decide))
  · exact ((positive_support_variables.1 cfg0 ktrace0 (by decide) kchain0
      (by decide) kdraw0 (by decide) (5 / 2)).2.2 (by decide))
  · exact ((positive_support_variables.2.1 [100] [0] mgModel0 cfg0 mgtrace0
      (by decide) (by decide) mgchain0 (by decide) mgdraw0 (by decide)
      (3 / 2)).1 (.inl (by decide)))
  · exact ((positive_support_variables.2.2 mgModel0 mgModel0 cfg0 mgtrace0
      (by decide) (by decide) mgchain0 (by decide) mgdraw0 (by decide)
      "nu" (5 / 3) (.shiftedExponential (.const (1 / 29)) 1)
      (by decide) (by decide)).2 1 rfl)

/-- C8. For every successfully constructed Model and valid configuration, a
successful sampling call returns a Trace with one chain per configured
chain, and, per chain, exactly one stored draw per retained iteration
(warm-up excluded by construction), each draw assigning exactly one value to
every declared RandomVariable and DeterministicVariable, in declaration
order. -/
theorem trace_shape (s : ModelSpec) (m : Model) (cfg : SamplerConfig)
    (tr : Trace) (hb : buildModel s = .ok m) (hv : cfg.valid)
    (hs : sample m cfg = .ok tr) :
    tr.chains.length = cfg.chains ∧
      ∀ c ∈ tr.chains, c.draws.length = cfg.draws ∧
        ∀ dr ∈ c.draws, dr.map Prod.fst = varNames m := by
  constructor
  · rw [sample_ok_chains hs]
    unfold runChains
    simp
  · intro c hc
    obtain ⟨seed, hcr⟩ := sample_ok_mem_chains hs hc
    subst hcr
    constructor
    · unfold runChain
      simp [collectDraws_length]
    · intro dr hdr
      obtain ⟨p, hp⟩ := runChain_draws_mem hdr
      subst hp
      exact mkDraw_names m.decls p []

/-- Witness for C8: the concrete two-group sampling run at the reference
configuration has one chain, one draw, and records exactly the declared
variables. -/
theorem trace_shape_witness :
    ktrace0.chains.length = 1 ∧ kchain0.draws.length = 1 ∧
      kdraw0.map Prod.fst = varNames kruschke_model := by
  have h := trace_shape kruschke_model kruschke_model cfg0 ktrace0
    kruschke_model_ok (by constructor <;> decide) (by decide)
  refine ⟨h.1, (h.2 kchain0 (by decide)).1, ?_⟩
  exact (h.2 kchain0 (by decide)).2 kdraw0 (by decide)

/-- C3. In every stored draw of every chain of a two-group-model Trace, each
DeterministicVariable equals its defining pure function recomputed from the
upstream values stored in the same draw: `diff_means` is the stored mean
difference, `pooled_sd` the stored-scale expression, `effect_size` their
quotient. -/
theorem deterministic_recomputation (cfg : SamplerConfig) (tr : Trace)
    (hs : sample kruschke_model cfg = .ok tr) :
    ∀ c ∈ tr.chains, ∀ dr ∈ c.draws,
      tlookup dr "diff_means" = tlookup dr "mu_drug" - tlookup dr "mu_placebo" ∧
      tlookup dr "pooled_sd" =
        sqrtQ ((tlookup dr "sigma_drug") ^ 2 + (tlookup dr "sigma_placebo") ^ 2 / 2) ∧
      tlookup dr "effect_size" = tlookup dr "diff_means" / tlookup dr "pooled_sd" := by
  intro c hc dr hdr
  obtain ⟨seed, hcr⟩ := sample_ok_mem_chains hs hc
  subst hcr
  obtain ⟨p, hp⟩ := runChain_draws_mem hdr
  subst hp
  refine ⟨rfl, rfl, rfl⟩

/-- Witness for C3: the recomputation identities at the concrete draw of the
reference run. -/
theorem deterministic_recomputation_witness :
    tlookup kdraw0 "diff_means" =
        tlookup kdraw0 "mu_drug" - tlookup kdraw0 "mu_placebo" ∧
      tlookup kdraw0 "pooled_sd" =
        sqrtQ ((tlookup kdraw0 "sigma_drug") ^ 2 +
          (tlookup kdraw0 "sigma_placebo") ^ 2 / 2) ∧
      tlookup kdraw0 "effect_size" =
        tlookup kdraw0 "diff_means" / tlookup kdraw0 "pooled_sd" :=
  deterministic_recomputation cfg0 ktrace0 (by decide) kchain0 (by decide)
    kdraw0 (by decide)

/-- C4. Sampling is a pure function of the Model and the configuration
(including the seed): for a Model with proper priors, two sampling calls
with equal configurations produce identical Traces. -/
theorem sampling_deterministic_given_seed (m : Model)
    (cfg1 cfg2 : SamplerConfig) (hp : properPriors m = true)
    (he : cfg1 = cfg2) : sample m cfg1 = sample m cfg2 := by
  rw [he]

/-- Witness for C4: the two-group model has proper priors and repeated
sampling at the reference configuration agrees. -/
theorem sampling_deterministic_given_seed_witness :
    sample kruschke_model cfg0 = sample kruschke_model cfg0 :=
  sampling_deterministic_given_seed kruschke_model cfg0 cfg0 (by decide) rfl

/-- The observation-only specification whose log-density is non-finite
everywhere (its Normal likelihood has scale 0), used to witness the
numerical-failure paths. -/
def failSpec : ModelSpec where
  data := [("d", [1])]
  decls := [.observe "y" (.normal (.const 0) (.const 0)) "d"]

/-- C7. An iteration whose proposal has non-finite (`none`) log-density
rejects only that proposal — the state is unchanged and the run continues —
and a sampling call with a valid configuration aborts with
`allChainsFailed` exactly when every chain produced no valid retained draw
(a failed chain is otherwise only flagged in its `ChainResult`). -/
theorem nonfinite_rejection_and_failure_semantics (m : Model) :
    (∀ p r, logp m (perturb p r).1 = none →
      step m p r = (p, lcg (perturb p r).2)) ∧
    (∀ cfg : SamplerConfig, ¬(cfg.draws = 0 ∨ cfg.chains = 0) →
      (sample m cfg = .error .allChainsFailed ↔
        ∀ c ∈ runChains m cfg, noValidDraw m c.points = true)) := by
  constructor
  · intro p r h
    simp only [step, h]
  · intro cfg hcfg
    have hbridge : ∀ c ∈ runChains m cfg, c.failed = noValidDraw m c.points := by
      intro c hc
      obtain ⟨i, _, he⟩ := List.mem_map.mp hc
      rw [← he]
      rfl
    unfold sample
    rw [if_neg hcfg]
    by_cases hall : ((runChains m cfg).all fun c => c.failed) = true
    · rw [if_pos hall]
      constructor
      · intro _ c hc
        rw [← hbridge c hc]
        exact List.all_eq_true.mp hall c hc
      · intro _
        rfl
    · rw [if_neg hall]
      constructor
      · intro h
        exact absurd h (by simp)
      · intro hforall
        exfalso
        apply hall
        rw [List.all_eq_true]
        intro c hc
        rw [hbridge c hc]
        exact hforall c hc

/-- Witness for C7: on the everywhere-non-finite specification the step from
the empty point rejects the proposal, and the sampling call aborts with
`allChainsFailed` while indeed every chain lacks a valid draw. -/
theorem nonfinite_rejection_and_failure_semantics_witness :
    step failSpec [] 0 = ([], lcg (perturb [] 0).2) ∧
      (sample failSpec cfg0 = .error .allChainsFailed ↔
        ∀ c ∈ runChains failSpec cfg0, noValidDraw failSpec c.points = true) :=
  ⟨(nonfinite_rejection_and_failure_semantics failSpec).1 [] 0 (by decide),
    (nonfinite_rejection_and_failure_semantics failSpec).2 cfg0 (by decide)⟩

/-! ## Claims about the metadata document and ECDF -/

/-- Entry lines are consumed into the accumulator of the current field. -/
theorem parseDocAux_entries (es : List (ℕ × String)) :
    ∀ (L : List DocLine) (k : String) (acc : List (ℕ × String)),
    parseDocAux ((es.map fun ce => DocLine.entry ce.1 ce.2) ++ L) k acc =
      parseDocAux L k (es.reverse ++ acc) := by
  induction es with
  | nil => intro L k acc; simp
  | cons ce rest ih =>
    intro L k acc
    calc parseDocAux (((ce :: rest).map fun c => DocLine.entry c.1 c.2) ++ L) k acc
        = parseDocAux ((rest.map fun c => DocLine.entry c.1 c.2) ++ L) k
            ((ce.1, ce.2) :: acc) := rfl
      _ = parseDocAux L k (rest.reverse ++ ((ce.1, ce.2) :: acc)) :=
            ih L k ((ce.1, ce.2) :: acc)
      _ = parseDocAux L k ((ce :: rest).reverse ++ acc) := by simp

/-- Parsing the dump of a dictionary while inside an open field recovers the
open field followed by the dictionary. -/
theorem parseDocAux_dump (m : List (String × List (ℕ × String))) :
    ∀ (k : String) (es acc : List (ℕ × String)),
    parseDocAux ((es.map fun ce => DocLine.entry ce.1 ce.2) ++ dumpDoc m) k acc =
      (k, acc.reverse ++ es) :: m := by
  induction m with
  | nil =>
    intro k es acc
    calc parseDocAux ((es.map fun ce => DocLine.entry ce.1 ce.2) ++ dumpDoc []) k acc
        = parseDocAux [] k (es.reverse ++ acc) := by
          rw [← parseDocAux_entries es [] k acc]
          rfl
      _ = [(k, acc.reverse ++ es)] := by simp [parseDocAux]
  | cons kv rest ih =>
    intro k es acc
    obtain ⟨k2, es2⟩ := kv
    calc parseDocAux ((es.map fun ce => DocLine.entry ce.1 ce.2) ++
            dumpDoc ((k2, es2) :: rest)) k acc
        = parseDocAux (DocLine.key k2 ::
            ((es2.map fun ce => DocLine.entry ce.1 ce.2) ++ dumpDoc rest)) k
            (es.reverse ++ acc) := by
          rw [← parseDocAux_entries es (DocLine.key k2 ::
            ((es2.map fun ce => DocLine.entry ce.1 ce.2) ++ dumpDoc rest)) k acc]
          rfl
      _ = (k, (es.reverse ++ acc).reverse) ::
            parseDocAux ((es2.map fun ce => DocLine.entry ce.1 ce.2) ++
              dumpDoc rest) k2 [] := rfl
      _ = (k, (es.reverse ++ acc).reverse) :: ((k2, List.reverse [] ++ es2) :: rest) := by
            rw [ih k2 es2 []]
      _ = (k, acc.reverse ++ es) :: (k2, es2) :: rest := by simp

/-- C9. Serializing a metadata dictionary to the structured key-value
document and deserializing the result is the identity; in particular the
notebook dictionary `md` round-trips exactly. -/
theorem metadata_roundtrip :
    (∀ mm : List (String × List (ℕ × String)), parseDoc (dumpDoc mm) = some mm) ∧
      parseDoc (dumpDoc md) = some md := by
  have hgen : ∀ mm : List (String × List (ℕ × String)),
      parseDoc (dumpDoc mm) = some mm := by
    intro mm
    cases mm with
    | nil => rfl
    | cons kv rest =>
      obtain ⟨k, es⟩ := kv
      calc parseDoc (dumpDoc ((k, es) :: rest))
          = some (parseDocAux ((es.map fun ce => DocLine.entry ce.1 ce.2) ++
              dumpDoc rest) k []) := rfl
        _ = some ((k, List.reverse [] ++ es) :: rest) := by
              rw [parseDocAux_dump rest k es []]
        _ = some ((k, es) :: rest) := by simp
  exact ⟨hgen, hgen md⟩

/-- The cumulative sums from an accumulator have the source length. -/
theorem cumsumFrom_length (acc : ℚ) (l : List ℚ) :
    (cumsumFrom acc l).length = l.length := by
  induction l generalizing acc with
  | nil => rfl
  | cons x xs ih => simp [cumsumFrom, ih]

/-- The `i`-th cumulative sum is the accumulator plus the sum of the first
`i + 1` elements. -/
theorem cumsumFrom_get (l : List ℚ) :
    ∀ (acc : ℚ) (i : ℕ) (hi : i < (cumsumFrom acc l).length),
    (cumsumFrom acc l).get ⟨i, hi⟩ = acc + (l.take (i + 1)).sum := by
  induction l with
  | nil => intro acc i hi; exact absurd hi (by simp [cumsumFrom])
  | cons x xs ih =>
    intro acc i hi
    match i with
    | 0 => simp [cumsumFrom]
    | j + 1 =>
      have hj : j < (cumsumFrom (acc + x) xs).length := by
        simpa [cumsumFrom] using hi
      have hstep := ih (acc + x) j hj
      simp only [cumsumFrom, List.get_cons_succ] at hstep ⊢
      rw [hstep, List.take_succ_cons, List.sum_cons]
      ring

/-- The `i`-th cumulative sum of a list is the sum of its first `i + 1`
elements. -/
theorem cumsum_get (l : List ℚ) (i : ℕ) (hi : i < (cumsum l).length) :
    (cumsum l).get ⟨i, hi⟩ = (l.take (i + 1)).sum := by
  have := cumsumFrom_get l 0 i hi
  simpa using this

/-- C10. For a non-empty list, `ECDF` returns the data sorted ascending as
`x`, and as `y` the running cumulative sums of the sorted values divided by
the total sum — the value-weighted cumulative proportion, whose `i`-th entry
is the sum of the first `i + 1` sorted values over the total, and whose last
entry is 1 whenever the total is non-zero (this is not the rank-based
empirical distribution with `i`-th entry `(i + 1) / n`). -/
theorem ECDF_spec (data : List ℚ) (hne : data ≠ []) :
    (ECDF data).1.Sorted (· ≤ ·) ∧
      (ECDF data).1.Perm data ∧
      (ECDF data).2.length = data.length ∧
      (∀ (i : ℕ) (hi : i < (ECDF data).2.length),
        (ECDF data).2.get ⟨i, hi⟩ = ((ECDF data).1.take (i + 1)).sum / data.sum) ∧
      (data.sum ≠ 0 → (ECDF data).2.getLast? = some 1) := by
  have h1 : (ECDF data).1 = data.insertionSort (· ≤ ·) := rfl
  have h2 : (ECDF data).2 =
      (cumsum (data.insertionSort (· ≤ ·))).map
        (fun v => v / (data.insertionSort (· ≤ ·)).sum) := rfl
  have hperm : (data.insertionSort (· ≤ ·)).Perm data :=
    List.perm_insertionSort (· ≤ ·) data
  have hsum : (data.insertionSort (· ≤ ·)).sum = data.sum := hperm.sum_eq
  have hxlen : (data.insertionSort (· ≤ ·)).length = data.length :=
    hperm.length_eq
  have hylen : (ECDF data).2.length = data.length := by
    rw [h2, List.length_map, cumsum, cumsumFrom_length, hxlen]
  have hget : ∀ (i : ℕ) (hi : i < (ECDF data).2.length),
      (ECDF data).2.get ⟨i, hi⟩ =
        ((ECDF data).1.take (i + 1)).sum / data.sum := by
    intro i hi
    have hi2 : i < (cumsum (data.insertionSort (· ≤ ·))).length := by
      rw [h2] at hi
      simpa using hi
    have hc := cumsum_get (data.insertionSort (· ≤ ·)) i hi2
    rw [List.get_eq_getElem] at hc ⊢
    rw [h1]
    simp only [h2, List.getElem_map]
    rw [hc, hsum]
  refine ⟨h1 ▸ List.sorted_insertionSort (· ≤ ·) data,
    h1 ▸ hperm, hylen, hget, ?_⟩
  intro hs
  have hy0 : (ECDF data).2 ≠ [] := by
    intro hnil
    have h0 := hylen
    rw [hnil] at h0
    exact hne (List.length_eq_zero.mp h0.symm)
  have hpos : 0 < (ECDF data).2.length :=
    List.length_pos.mpr hy0
  have hlt : (ECDF data).2.length - 1 < (ECDF data).2.length :=
    Nat.sub_lt hpos Nat.one_pos
  rw [List.getLast?_eq_getLast _ hy0, List.getLast_eq_getElem]
  have hg := hget ((ECDF data).2.length - 1) hlt
  rw [List.get_eq_getElem] at hg
  rw [hg]
  have hsucc : (ECDF data).2.length - 1 + 1 = data.length := by
    rw [hylen] at hpos ⊢
    exact Nat.succ_pred_eq_of_pos hpos
  rw [hsucc, ← hxlen, h1, List.take_length, hsum, div_self hs]

/-- Witness for C10: the concrete list `[1, 2]` has non-empty data and
non-zero sum, and its `ECDF` output satisfies the specification. -/
theorem ECDF_spec_witness :
    (ECDF [1, 2]).1.Sorted (· ≤ ·) ∧
      (ECDF [1, 2]).1.Perm [1, 2] ∧
      (ECDF [1, 2]).2.length = ([1, 2] : List ℚ).length ∧
      (ECDF [1, 2]).2.getLast? = some 1 :=
  have h := ECDF_spec [1, 2] (by decide)
  ⟨h.1, h.2.1, h.2.2.1, h.2.2.2.2 (by decide)⟩

end BayesRecipes
